import Mathlib

/-!
Shallow embedding of the matrix-multiplication benchmark crate
(src/lib.rs, src/main.rs) and verification of its specification claims.

The Rust element type `f64` is modelled by a type parameter `α` equipped
with exactly the operations the kernels use (`+`, `*`, the literal `0.0`):
every theorem proved for arbitrary `α` holds in particular for IEEE-754
doubles with their (non-associative) addition and multiplication, so
equalities proved at this level are bit-identities of the f64 program.
Claims that additionally need the algebraic facts `x*1 = x`, `x*0 = 0`,
`x+0 = 0+x = x` (the spec's own "no rounding occurs when one operand is
0 or 1" argument) take the corresponding typeclasses as assumptions.

Rust's const-generic array shapes become runtime data: a matrix is a list
of rows, an index access is an `Option` (with `none` modelling an
out-of-bounds panic), and the sequential kernel returns
`Except (Matrix α) (Matrix α)`: `.ok` is normal return with the filled
target, `.error t` models a panic that unwinds while the caller's `&mut`
target buffer holds the partial state `t`.
-/

namespace MatrixBench

/-- Embedding of `struct Matrix<const ROWS, const COLS>([[f64; COLS]; ROWS])`
from src/lib.rs: a list of rows.  The const-generic shape becomes the
predicate `hasShape`. -/
structure Matrix (α : Type) where
  data : List (List α)
  deriving DecidableEq

variable {α : Type}

/-- The shape the Rust type `Matrix<rows, cols>` guarantees statically:
`rows` rows, each of length `cols`. -/
def Matrix.hasShape (m : Matrix α) (rows cols : Nat) : Prop :=
  m.data.length = rows ∧ ∀ row ∈ m.data, row.length = cols

instance (m : Matrix α) (r c : Nat) : Decidable (m.hasShape r c) := by
  unfold Matrix.hasShape
  infer_instance

/-- Embedding of the Rust index expression `m.0[i][j]`: `none` models the
out-of-bounds panic. -/
def Matrix.idx? (m : Matrix α) (i j : Nat) : Option α :=
  match m.data[i]? with
  | some row => row[j]?
  | none => none

/-- Embedding of the Rust assignment `m.0[i][j] = v`: `none` models the
out-of-bounds panic, `some` returns the updated matrix. -/
def Matrix.writeCell? (m : Matrix α) (i j : Nat) (v : α) : Option (Matrix α) :=
  match m.data[i]? with
  | some row =>
    if j < row.length then some ⟨m.data.set i (row.set j v)⟩ else none
  | none => none

/-- Total cell read used in specification statements; out-of-bounds reads
default to `0` (theorems only ever use it in bounds). -/
def Matrix.get [Zero α] (m : Matrix α) (i j : Nat) : α :=
  (m.idx? i j).getD 0

/-- Embedding of `Matrix::zeros()` from src/lib.rs: every cell `0.0`. -/
def Matrix.zeros [Zero α] (rows cols : Nat) : Matrix α :=
  ⟨List.replicate rows (List.replicate cols 0)⟩

/-- Embedding of `Matrix::random()` from src/lib.rs: each cell is
`rng.random::<f64>() * 10.0`.  The stream of draws produced by the mutable
`rng` is modelled by the function `draw`, one value per cell position;
the theorems assume each draw lies in `[0, 1)` as `rng.random::<f64>()`
guarantees. -/
def Matrix.random [Mul α] [OfNat α 10] (rows cols : Nat)
    (draw : Nat → Nat → α) : Matrix α :=
  ⟨(List.range rows).map fun i => (List.range cols).map fun j => draw i j * 10⟩

/-- The inner accumulation loop shared by both kernels:
`let mut sum = 0.0; for k in 0..INNER { sum += a.0[i][k] * b.0[k][j] }`.
`none` models a panic on an out-of-bounds access. -/
def innerSum [Add α] [Mul α] [Zero α] (a b : Matrix α) (INNER i j : Nat) :
    Option α :=
  (List.range INNER).foldlM
    (fun sum k =>
      match a.idx? i k, b.idx? k j with
      | some x, some y => some (sum + x * y)
      | _, _ => none)
    0

/-- Embedding of `multiply` from src/lib.rs (the sequential kernel): outer
loop over `i in 0..ROWS`, middle loop over `j in 0..COLS`, inner loop over
`k in 0..INNER`, writing `target.0[i][j] = sum`.  `.error t` models a
panic raised with the caller's target buffer in partial state `t`. -/
def multiply [Add α] [Mul α] [Zero α] (ROWS COLS INNER : Nat)
    (a b target : Matrix α) : Except (Matrix α) (Matrix α) :=
  (List.range ROWS).foldlM
    (fun t i =>
      (List.range COLS).foldlM
        (fun t2 j =>
          match innerSum a b INNER i j with
          | some sum =>
            match t2.writeCell? i j sum with
            | some t3 => Except.ok t3
            | none => Except.error t2
          | none => Except.error t2)
        t)
    target

/-- Embedding of `multiply_parallel` from src/lib.rs.  The rayon call
`target.0.par_iter_mut().enumerate().for_each(...)` computes, for each row
index `i` of the target and each position `j` of that row, the same inner
sum as the sequential kernel and stores it into that cell; the rows are
disjoint, each cell is written exactly once, and the written value does not
depend on the scheduling, so the parallel loop is modelled as a map over
the enumerated target rows.  `numThreads` reaches only
`ThreadPoolBuilder::new().num_threads(..).build_global().ok()`, which
configures (or fails to reconfigure, the error being discarded by `.ok()`)
the pool size and never affects the written values; rayon treats the value
`0` as "choose the thread count automatically".  The const parameters
`ROWS` and `COLS` of the Rust function occur only in its argument types,
not in its body, so only `INNER` appears here.  `none` models a panic of a
worker on an out-of-bounds access. -/
def multiplyParallel [Add α] [Mul α] [Zero α] (INNER : Nat)
    (a b : Matrix α) (numThreads : Nat) (target : Matrix α) :
    Option (Matrix α) :=
  match numThreads, target.data.enum.mapM
      (fun irow => irow.2.enum.mapM (fun jv => innerSum a b INNER irow.1 jv.1)) with
  | _, some rows => some ⟨rows⟩
  | _, none => none

instance {ε β : Type} [DecidableEq ε] [DecidableEq β] :
    DecidableEq (Except ε β) := fun x y =>
  match x, y with
  | Except.ok a, Except.ok b =>
    if h : a = b then isTrue (congrArg Except.ok h)
    else isFalse (fun hc => h (Except.ok.inj hc))
  | Except.error a, Except.error b =>
    if h : a = b then isTrue (congrArg Except.error h)
    else isFalse (fun hc => h (Except.error.inj hc))
  | Except.ok _, Except.error _ => isFalse (fun hc => nomatch hc)
  | Except.error _, Except.ok _ => isFalse (fun hc => nomatch hc)

/-- Specification-side matrix built from a cell function: row `i`, column
`j` holds `f i j`. -/
def mkCells (rows cols : Nat) (f : Nat → Nat → α) : Matrix α :=
  ⟨(List.range rows).map fun i => (List.range cols).map fun j => f i j⟩

/-- The value both kernels store in cell `(i, j)`: the left-to-right
accumulation `(((0 + a[i][0]*b[0][j]) + a[i][1]*b[1][j]) + ...)` over
`k < INNER`, exactly the summation order of the Rust loops. -/
def seqCell [Add α] [Mul α] [Zero α] (a b : Matrix α) (INNER i j : Nat) : α :=
  (List.range INNER).foldl (fun sum k => sum + a.get i k * b.get k j) 0

/-- Modelled from the spec (a test input, not code of the crate): the
`n × n` identity matrix, `1.0` on the diagonal and `0.0` elsewhere. -/
def Matrix.identity [Zero α] [One α] (n : Nat) : Matrix α :=
  mkCells n n (fun i j => if i = j then 1 else 0)

/-- The body of the sequential kernel's middle loop, named so that lemmas
can speak about it; `multiply` unfolds to folds of this step function. -/
def colStep [Add α] [Mul α] [Zero α] (a b : Matrix α) (INNER i : Nat)
    (t2 : Matrix α) (j : Nat) : Except (Matrix α) (Matrix α) :=
  match innerSum a b INNER i j with
  | some sum =>
    match t2.writeCell? i j sum with
    | some t3 => Except.ok t3
    | none => Except.error t2
  | none => Except.error t2

/-- The per-value body of the Display loop in src/lib.rs: a single space
before every value except the first (`if j > 0 { write!(f, " ")? }`),
then the value itself; `f` models the `write!(f, "{val:.6}")` rendering of
one `f64`. -/
def rowStep (f : α → String) (acc : String) (jv : Nat × α) : String :=
  acc ++ (if 0 < jv.1 then " " else "") ++ f jv.2

/-- The inner loop of the Display implementation in src/lib.rs: the values
of one row, space-separated. -/
def renderRow (f : α → String) (row : List α) : String :=
  row.enum.foldl (rowStep f) ""

/-- The per-row body of the Display loop in src/lib.rs: the bracketed row,
then a newline if this is not the last row
(`if i < self.0.len() - 1 { writeln!(f)? }`); `L` is `self.0.len()`. -/
def rowsStep (f : α → String) (L : Nat) (acc : String)
    (irow : Nat × List α) : String :=
  acc ++ "[" ++ renderRow f irow.2 ++ "]" ++
    (if irow.1 < L - 1 then "\n" else "")

/-- Embedding of the Display implementation for `Matrix` in src/lib.rs:
each row rendered as `[v0 v1 ...]`, rows separated by newlines, no
trailing newline after the last row. -/
def Matrix.render (f : α → String) (m : Matrix α) : String :=
  m.data.enum.foldl (rowsStep f m.data.length) ""

/-- Specification-side join with separator: the pieces concatenated with
`sep` between consecutive pieces, nothing before the first or after the
last. -/
def joinSep (sep : String) : List String → String
  | [] => ""
  | [x] => x
  | x :: y :: xs => x ++ sep ++ joinSep sep (y :: xs)

/-- Modelled from the Rust standard library (the `{val:.6}` format in
src/lib.rs delegates the numeric rendering to std, which is not part of
this crate): rounding of a rational to the nearest integer with ties to
even, as fixed-precision float formatting does. -/
def roundTiesEven (q : ℚ) : ℤ :=
  if q - (⌊q⌋ : ℚ) < 1 / 2 then ⌊q⌋
  else if 1 / 2 < q - (⌊q⌋ : ℚ) then ⌊q⌋ + 1
  else if ⌊q⌋ % 2 = 0 then ⌊q⌋ else ⌊q⌋ + 1

/-- Modelled from the Rust standard library: the six digits printed after
the decimal point for the fractional part `n < 10^6`, positional decimal
digits most significant first, zero-padded to width six. -/
def sixFracDigits (n : Nat) : String :=
  String.mk ((List.range 6).map fun i => Nat.digitChar (n / 10 ^ (5 - i) % 10))

/-- Modelled from the Rust standard library: the fixed-precision rendering
`{val:.6}` of one value — sign, integer part, a decimal point, then
exactly six fractional digits — applied to the exact rational value of the
cell. -/
def fmtFixed6 (q : ℚ) : String :=
  (if roundTiesEven (q * 1000000) < 0 then "-" else "") ++
    Nat.repr ((roundTiesEven (q * 1000000)).natAbs / 1000000) ++ "." ++
    sixFracDigits ((roundTiesEven (q * 1000000)).natAbs % 1000000)

lemma multiply_eq_fold [Add α] [Mul α] [Zero α] (ROWS COLS INNER : Nat)
    (a b target : Matrix α) :
    multiply ROWS COLS INNER a b target =
      (List.range ROWS).foldlM
        (fun t i => (List.range COLS).foldlM (colStep a b INNER i) t)
        target := rfl

lemma Matrix.idx?_eq_some [Zero α] {m : Matrix α} {r c i j : Nat}
    (hm : m.hasShape r c) (hi : i < r) (hj : j < c) :
    m.idx? i j = some (m.get i j) := by
  obtain ⟨hlen, hrows⟩ := hm
  have hi2 : i < m.data.length := by omega
  have hrow : m.data[i].length = c := hrows _ (List.getElem_mem hi2)
  unfold Matrix.get Matrix.idx?
  rw [List.getElem?_eq_getElem hi2]
  show (m.data[i])[j]? = some (((m.data[i])[j]?).getD 0)
  rw [List.getElem?_eq_getElem (show j < (m.data[i]).length by omega)]
  rfl

lemma Matrix.idx?_eq_none_left {m : Matrix α} {i j : Nat}
    (hi : m.data.length ≤ i) : m.idx? i j = none := by
  unfold Matrix.idx?
  rw [List.getElem?_eq_none hi]

lemma Matrix.idx?_eq_none_right {m : Matrix α} {i j : Nat}
    (hi : i < m.data.length) (hj : m.data[i].length ≤ j) :
    m.idx? i j = none := by
  unfold Matrix.idx?
  rw [List.getElem?_eq_getElem hi]
  exact List.getElem?_eq_none hj

lemma foldlM_option_eq_foldl {β γ : Type} (f : β → γ → Option β)
    (g : β → γ → β) (l : List γ)
    (h : ∀ s x, x ∈ l → f s x = some (g s x)) (init : β) :
    l.foldlM f init = some (l.foldl g init) := by
  induction l generalizing init with
  | nil => rfl
  | cons a as ih =>
    rw [List.foldlM_cons, h init a (List.mem_cons_self a as)]
    show as.foldlM f (g init a) = _
    rw [List.foldl_cons]
    exact ih (fun s x hx => h s x (List.mem_cons_of_mem _ hx)) (g init a)

lemma mapM_option_eq_map {β γ : Type} (f : γ → Option β) (g : γ → β)
    (l : List γ) (h : ∀ x ∈ l, f x = some (g x)) :
    l.mapM f = some (l.map g) := by
  induction l with
  | nil => rfl
  | cons a as ih =>
    rw [List.mapM_cons, h a (List.mem_cons_self a as),
      ih (fun x hx => h x (List.mem_cons_of_mem _ hx))]
    rfl

lemma innerSum_eq_seqCell [Add α] [Mul α] [Zero α] {a b : Matrix α}
    {ra ca rb cb INNER i j : Nat}
    (ha : a.hasShape ra ca) (hb : b.hasShape rb cb)
    (hi : i < ra) (hca : INNER ≤ ca) (hrb : INNER ≤ rb) (hj : j < cb) :
    innerSum a b INNER i j = some (seqCell a b INNER i j) := by
  unfold innerSum seqCell
  apply foldlM_option_eq_foldl
  intro s k hk
  have hk2 : k < INNER := List.mem_range.mp hk
  rw [Matrix.idx?_eq_some ha hi (by omega), Matrix.idx?_eq_some hb (by omega) hj]

lemma writeCell?_spec {m : Matrix α} {r c i j : Nat} (v : α)
    (hm : m.hasShape r c) (hi : i < r) (hj : j < c) :
    ∃ m2 : Matrix α, m.writeCell? i j v = some m2 ∧ m2.hasShape r c ∧
      ∀ i2 j2, m2.idx? i2 j2 =
        if i2 = i ∧ j2 = j then some v else m.idx? i2 j2 := by
  obtain ⟨hlen, hrows⟩ := hm
  have hi2 : i < m.data.length := by omega
  have hrowlen : m.data[i].length = c := hrows _ (List.getElem_mem hi2)
  refine ⟨⟨m.data.set i ((m.data[i]).set j v)⟩, ?_, ⟨?_, ?_⟩, ?_⟩
  · unfold Matrix.writeCell?
    rw [List.getElem?_eq_getElem hi2]
    show (if j < (m.data[i]).length then _ else _) = _
    rw [if_pos (show j < (m.data[i]).length by omega)]
  · simpa using hlen
  · intro row hrow
    rcases List.mem_or_eq_of_mem_set hrow with h | h
    · exact hrows row h
    · subst h
      simpa using hrowlen
  · intro i2 j2
    unfold Matrix.idx?
    rw [List.getElem?_set]
    by_cases h1 : i = i2
    · subst h1
      rw [if_pos rfl, if_pos hi2]
      show ((m.data[i]).set j v)[j2]? = _
      rw [List.getElem?_set]
      by_cases h2 : j = j2
      · subst h2
        rw [if_pos rfl, if_pos (show j < (m.data[i]).length by omega),
          if_pos ⟨rfl, rfl⟩]
      · rw [if_neg h2, if_neg (by tauto)]
        rw [List.getElem?_eq_getElem hi2]
    · rw [if_neg h1, if_neg (by tauto)]

lemma colLoop_spec [Add α] [Mul α] [Zero α] {a b : Matrix α} {n : Nat}
    (ha : a.hasShape n n) (hb : b.hasShape n n) {i : Nat} (hi : i < n)
    (l : List Nat) (hl : ∀ j ∈ l, j < n) :
    ∀ t : Matrix α, t.hasShape n n →
      ∃ t2, l.foldlM (colStep a b n i) t = Except.ok t2 ∧ t2.hasShape n n ∧
        ∀ i2 j2, t2.idx? i2 j2 =
          if i2 = i ∧ j2 ∈ l then some (seqCell a b n i2 j2)
          else t.idx? i2 j2 := by
  induction l with
  | nil =>
    intro t ht
    exact ⟨t, rfl, ht, by simp⟩
  | cons j js ih =>
    intro t ht
    have hj : j < n := hl j (List.mem_cons_self j js)
    have hsum := innerSum_eq_seqCell ha hb hi (le_refl n) (le_refl n) hj
    obtain ⟨t3, hw, ht3, hchar⟩ := writeCell?_spec (seqCell a b n i j) ht hi hj
    have hstep : colStep a b n i t j = Except.ok t3 := by
      unfold colStep
      rw [hsum]
      show (match t.writeCell? i j (seqCell a b n i j) with
        | some t4 => Except.ok t4
        | none => Except.error t) = Except.ok t3
      rw [hw]
    rw [List.foldlM_cons, hstep]
    obtain ⟨t2, hfold, ht2, hchar2⟩ :=
      ih (fun x hx => hl x (List.mem_cons_of_mem _ hx)) t3 ht3
    refine ⟨t2, hfold, ht2, ?_⟩
    intro i2 j2
    rw [hchar2 i2 j2]
    by_cases h1 : i2 = i
    · subst h1
      by_cases h2 : j2 ∈ js
      · rw [if_pos ⟨rfl, h2⟩, if_pos ⟨rfl, List.mem_cons_of_mem _ h2⟩]
      · rw [if_neg (fun hc => h2 hc.2), hchar]
        by_cases h3 : j2 = j
        · subst h3
          rw [if_pos ⟨rfl, rfl⟩, if_pos ⟨rfl, List.mem_cons_self j2 js⟩]
        · rw [if_neg (fun hc => h3 hc.2),
            if_neg (fun hc => (List.mem_cons.mp hc.2).elim h3 h2)]
    · rw [if_neg (fun hc => h1 hc.1), hchar, if_neg (fun hc => h1 hc.1),
        if_neg (fun hc => h1 hc.1)]

lemma rowLoop_spec [Add α] [Mul α] [Zero α] {a b : Matrix α} {n : Nat}
    (ha : a.hasShape n n) (hb : b.hasShape n n)
    (l : List Nat) (hl : ∀ i ∈ l, i < n) :
    ∀ t : Matrix α, t.hasShape n n →
      ∃ t2, l.foldlM
          (fun t i => (List.range n).foldlM (colStep a b n i) t) t =
            Except.ok t2 ∧ t2.hasShape n n ∧
        ∀ i2 j2, t2.idx? i2 j2 =
          if i2 ∈ l ∧ j2 < n then some (seqCell a b n i2 j2)
          else t.idx? i2 j2 := by
  induction l with
  | nil =>
    intro t ht
    exact ⟨t, rfl, ht, by simp⟩
  | cons i is ih =>
    intro t ht
    have hi : i < n := hl i (List.mem_cons_self i is)
    obtain ⟨t3, hcol, ht3, hchar⟩ :=
      colLoop_spec ha hb hi (List.range n) (fun x hx => List.mem_range.mp hx)
        t ht
    rw [List.foldlM_cons, hcol]
    obtain ⟨t2, hfold, ht2, hchar2⟩ :=
      ih (fun x hx => hl x (List.mem_cons_of_mem _ hx)) t3 ht3
    refine ⟨t2, hfold, ht2, ?_⟩
    intro i2 j2
    rw [hchar2 i2 j2]
    by_cases h2 : j2 < n
    · by_cases h1 : i2 ∈ is
      · rw [if_pos ⟨h1, h2⟩, if_pos ⟨List.mem_cons_of_mem _ h1, h2⟩]
      · rw [if_neg (fun hc => h1 hc.1), hchar]
        by_cases h3 : i2 = i
        · subst h3
          rw [if_pos ⟨rfl, List.mem_range.mpr h2⟩,
            if_pos ⟨List.mem_cons_self i2 is, h2⟩]
        · rw [if_neg (fun hc => h3 hc.1),
            if_neg (fun hc => (List.mem_cons.mp hc.1).elim h3 h1)]
    · rw [if_neg (fun hc => h2 hc.2), hchar,
        if_neg (fun hc => h2 (List.mem_range.mp hc.2)),
        if_neg (fun hc => h2 hc.2)]

lemma mkCells_hasShape (rows cols : Nat) (f : Nat → Nat → α) :
    (mkCells rows cols f).hasShape rows cols := by
  constructor
  · simp [mkCells]
  · intro row hrow
    simp only [mkCells, List.mem_map] at hrow
    obtain ⟨i, _, rfl⟩ := hrow
    simp

lemma mkCells_idx? {rows cols i j : Nat} (f : Nat → Nat → α)
    (hi : i < rows) (hj : j < cols) :
    (mkCells rows cols f).idx? i j = some (f i j) := by
  unfold mkCells Matrix.idx?
  rw [List.getElem?_map, List.getElem?_range hi]
  show ((List.range cols).map fun j => f i j)[j]? = some (f i j)
  rw [List.getElem?_map, List.getElem?_range hj]
  rfl

lemma mkCells_get [Zero α] {rows cols i j : Nat} (f : Nat → Nat → α)
    (hi : i < rows) (hj : j < cols) :
    (mkCells rows cols f).get i j = f i j := by
  unfold Matrix.get
  rw [mkCells_idx? f hi hj]
  rfl

lemma Matrix.eq_of_shape_idx? {m1 m2 : Matrix α} {r c : Nat}
    (h1 : m1.hasShape r c) (h2 : m2.hasShape r c)
    (h : ∀ i j, i < r → j < c → m1.idx? i j = m2.idx? i j) : m1 = m2 := by
  obtain ⟨d1⟩ := m1
  obtain ⟨d2⟩ := m2
  obtain ⟨hl1, hr1⟩ := h1
  obtain ⟨hl2, hr2⟩ := h2
  have hd1 : d1.length = r := hl1
  have hd2 : d2.length = r := hl2
  congr 1
  apply List.ext_getElem?
  intro i
  by_cases hi : i < r
  · have hi1 : i < d1.length := by omega
    have hi2 : i < d2.length := by omega
    have hc1 : d1[i].length = c := hr1 _ (List.getElem_mem hi1)
    have hc2 : d2[i].length = c := hr2 _ (List.getElem_mem hi2)
    rw [List.getElem?_eq_getElem hi1, List.getElem?_eq_getElem hi2]
    congr 1
    apply List.ext_getElem?
    intro j
    by_cases hj : j < c
    · have hx := h i j hi hj
      unfold Matrix.idx? at hx
      rw [List.getElem?_eq_getElem hi1, List.getElem?_eq_getElem hi2] at hx
      exact hx
    · rw [List.getElem?_eq_none (by omega), List.getElem?_eq_none (by omega)]
  · rw [List.getElem?_eq_none (by omega), List.getElem?_eq_none (by omega)]

lemma multiply_square_eq [Add α] [Mul α] [Zero α] {n : Nat}
    {a b t : Matrix α}
    (ha : a.hasShape n n) (hb : b.hasShape n n) (ht : t.hasShape n n) :
    multiply n n n a b t = Except.ok (mkCells n n (seqCell a b n)) := by
  obtain ⟨t2, hfold, ht2, hchar⟩ :=
    rowLoop_spec ha hb (List.range n) (fun x hx => List.mem_range.mp hx) t ht
  rw [multiply_eq_fold, hfold]
  congr 1
  apply Matrix.eq_of_shape_idx? ht2 (mkCells_hasShape n n _)
  intro i j hi hj
  rw [hchar i j, if_pos ⟨List.mem_range.mpr hi, hj⟩, mkCells_idx? _ hi hj]

lemma multiplyParallel_square_eq [Add α] [Mul α] [Zero α] {n : Nat}
    (w : Nat) {a b t : Matrix α}
    (ha : a.hasShape n n) (hb : b.hasShape n n) (ht : t.hasShape n n) :
    multiplyParallel n a b w t = some (mkCells n n (seqCell a b n)) := by
  obtain ⟨hlen, hrows⟩ := ht
  have houter : t.data.enum.mapM
      (fun irow => irow.2.enum.mapM (fun jv => innerSum a b n irow.1 jv.1)) =
      some (t.data.enum.map
        (fun irow => irow.2.enum.map (fun jv => seqCell a b n irow.1 jv.1))) := by
    apply mapM_option_eq_map
    intro p hp
    have hp2 := List.mem_enum_iff_getElem?.mp hp
    have hp1 : p.1 < t.data.length := by
      by_contra hcon
      rw [List.getElem?_eq_none (by omega)] at hp2
      exact Option.noConfusion hp2
    have hpr : p.2 ∈ t.data := by
      rw [List.getElem?_eq_getElem hp1] at hp2
      rw [← Option.some.inj hp2]
      exact List.getElem_mem hp1
    have hplen : p.2.length = n := hrows _ hpr
    apply mapM_option_eq_map
    intro q hq
    have hq2 := List.mem_enum_iff_getElem?.mp hq
    have hq1 : q.1 < p.2.length := by
      by_contra hcon
      rw [List.getElem?_eq_none (by omega)] at hq2
      exact Option.noConfusion hq2
    exact innerSum_eq_seqCell ha hb (by omega) (le_refl n) (le_refl n)
      (by omega)
  unfold multiplyParallel
  rw [houter]
  show some (⟨t.data.enum.map
      (fun irow => irow.2.enum.map (fun jv => seqCell a b n irow.1 jv.1))⟩ :
        Matrix α) = _
  congr 1
  have hshape : (⟨t.data.enum.map
      (fun irow => irow.2.enum.map (fun jv => seqCell a b n irow.1 jv.1))⟩ :
        Matrix α).hasShape n n := by
    constructor
    · simp [hlen]
    · intro row hrow
      simp only [List.mem_map] at hrow
      obtain ⟨p, hp, rfl⟩ := hrow
      have hp2 := List.mem_enum_iff_getElem?.mp hp
      have hp1 : p.1 < t.data.length := by
        by_contra hcon
        rw [List.getElem?_eq_none (by omega)] at hp2
        exact Option.noConfusion hp2
      have hpr : p.2 ∈ t.data := by
        rw [List.getElem?_eq_getElem hp1] at hp2
        rw [← Option.some.inj hp2]
        exact List.getElem_mem hp1
      simp [List.enumFrom_length, hrows _ hpr]
  apply Matrix.eq_of_shape_idx? hshape (mkCells_hasShape n n _)
  intro i j hi hj
  rw [mkCells_idx? _ hi hj]
  have hi1 : i < t.data.length := by omega
  have hjlen : j < t.data[i].length := by
    rw [hrows _ (List.getElem_mem hi1)]
    omega
  unfold Matrix.idx?
  rw [List.getElem?_map, List.getElem?_enum, List.getElem?_eq_getElem hi1]
  simp only [Option.map_some']
  show ((t.data[i]).enum.map
      (fun jv => seqCell a b n (i, t.data[i]).1 jv.1))[j]? = _
  rw [List.getElem?_map, List.getElem?_enum, List.getElem?_eq_getElem hjlen]
  simp only [Option.map_some']

lemma foldl_add_eq_zero {β : Type} [Add β] [Zero β]
    (haddz : ∀ x : β, x + 0 = x) (n : Nat) (g : Nat → β)
    (h : ∀ p, p < n → g p = 0) :
    (List.range n).foldl (fun s p => s + g p) 0 = 0 := by
  revert h
  induction n with
  | zero =>
    intro h
    rfl
  | succ m ih =>
    intro h
    rw [List.range_succ, List.foldl_append]
    show (List.range m).foldl (fun s p => s + g p) 0 + g m = 0
    rw [ih (fun p hp => h p (by omega)), h m (by omega), haddz]

lemma foldl_add_eq_single {β : Type} [Add β] [Zero β]
    (haddz : ∀ x : β, x + 0 = x) (hzadd : ∀ x : β, 0 + x = x)
    (n j : Nat) (g : Nat → β) (hj : j < n)
    (h : ∀ p, p < n → p ≠ j → g p = 0) :
    (List.range n).foldl (fun s p => s + g p) 0 = g j := by
  revert hj h
  induction n with
  | zero =>
    intro hj h
    omega
  | succ m ih =>
    intro hj h
    rw [List.range_succ, List.foldl_append]
    show (List.range m).foldl (fun s p => s + g p) 0 + g m = g j
    by_cases hjm : j = m
    · rw [hjm]
      rw [foldl_add_eq_zero haddz m g
        (fun p hp => h p (by omega) (by omega)), hzadd]
    · rw [ih (by omega) (fun p hp hpj => h p (by omega) hpj),
        h m (by omega) (fun he => hjm he.symm), haddz]

lemma zeros_hasShape [Zero α] (r c : Nat) :
    (Matrix.zeros r c : Matrix α).hasShape r c := by
  constructor
  · simp [Matrix.zeros]
  · intro row hrow
    rw [List.eq_of_mem_replicate hrow]
    simp

lemma zeros_get [Zero α] (r c i j : Nat) :
    (Matrix.zeros r c : Matrix α).get i j = 0 := by
  unfold Matrix.get Matrix.idx? Matrix.zeros
  rw [List.getElem?_replicate]
  by_cases hi : i < r
  · rw [if_pos hi]
    show ((List.replicate c (0 : α))[j]?).getD 0 = 0
    rw [List.getElem?_replicate]
    by_cases hj : j < c
    · rw [if_pos hj]
      rfl
    · rw [if_neg hj]
      rfl
  · rw [if_neg hi]
    rfl

lemma identity_hasShape [Zero α] [One α] (n : Nat) :
    (Matrix.identity n : Matrix α).hasShape n n :=
  mkCells_hasShape n n _

lemma identity_get [Zero α] [One α] {n i j : Nat} (hi : i < n) (hj : j < n) :
    (Matrix.identity n : Matrix α).get i j = if i = j then 1 else 0 :=
  mkCells_get _ hi hj

lemma seqCell_identity [Zero α] [One α] [Add α] [Mul α]
    (hmul1 : ∀ x : α, x * 1 = x) (hmul0 : ∀ x : α, x * 0 = 0)
    (haddz : ∀ x : α, x + 0 = x) (hzadd : ∀ x : α, 0 + x = x)
    {n i j : Nat} (a : Matrix α) (hi : i < n) (hj : j < n) :
    seqCell a (Matrix.identity n) n i j = a.get i j := by
  unfold seqCell
  have hstep := foldl_add_eq_single haddz hzadd n j
    (fun k => a.get i k * (Matrix.identity n : Matrix α).get k j) hj
    (fun p hp hpj => by
      show a.get i p * (Matrix.identity n : Matrix α).get p j = 0
      rw [identity_get hp hj, if_neg hpj, hmul0])
  rw [hstep]
  show a.get i j * (Matrix.identity n : Matrix α).get j j = a.get i j
  rw [identity_get hj hj, if_pos rfl, hmul1]

lemma seqCell_zeros [Zero α] [Add α] [Mul α]
    (hmul0 : ∀ x : α, x * 0 = 0) (haddz : ∀ x : α, x + 0 = x)
    {n : Nat} (rz cz : Nat) (a : Matrix α) (i j : Nat) :
    seqCell a (Matrix.zeros rz cz) n i j = 0 := by
  unfold seqCell
  exact foldl_add_eq_zero haddz n _
    (fun p hp => by rw [zeros_get, hmul0])

/-- C1: every call of the sequential kernel `multiply` on operands whose
shapes conform to its signature (`a : Matrix<INNER, COLS>`,
`b : Matrix<ROWS, INNER>`, `target : Matrix<ROWS, INNER>`; reading them as
`A : (m,k)`, `B : (k,n)`, `C : (m,n)` forces `ROWS = COLS = INNER = n`)
returns normally, and every cell of the result satisfies
`C[i][j] = Σ_{p<n} A[i][p] * B[p][j]`, accumulated left-to-right from `0`
with `p` ascending — the loops run `i` outer, `j` middle, `p` inner — over
the program's `+`/`*`, hence bit-identically for IEEE-754 doubles. -/
theorem C1_sequential_kernel_cell_formula [Add α] [Mul α] [Zero α] {n : Nat}
    {a b t : Matrix α} (ha : a.hasShape n n) (hb : b.hasShape n n)
    (ht : t.hasShape n n) :
    ∃ r, multiply n n n a b t = Except.ok r ∧ r.hasShape n n ∧
      ∀ i j, i < n → j < n →
        r.get i j =
          (List.range n).foldl
            (fun sum p => sum + a.get i p * b.get p j) 0 := by
  refine ⟨mkCells n n (seqCell a b n), multiply_square_eq ha hb ht,
    mkCells_hasShape n n _, ?_⟩
  intro i j hi hj
  rw [mkCells_get _ hi hj]
  rfl

theorem C1_sequential_kernel_cell_formula_witness :
    ∃ r, multiply 2 2 2 (⟨[[1, 2], [3, 4]]⟩ : Matrix ℤ) ⟨[[5, 6], [7, 8]]⟩
        ⟨[[0, 0], [0, 0]]⟩ = Except.ok r ∧ r.hasShape 2 2 ∧
      ∀ i j, i < 2 → j < 2 →
        r.get i j =
          (List.range 2).foldl
            (fun sum p => sum + (⟨[[1, 2], [3, 4]]⟩ : Matrix ℤ).get i p *
              (⟨[[5, 6], [7, 8]]⟩ : Matrix ℤ).get p j) 0 :=
  C1_sequential_kernel_cell_formula (by decide) (by decide) (by decide)

/-- C2: for square inputs and every worker count `W ∈ {1, 2, 10, 50}`, the
parallel kernel produces a target bit-identical to the sequential kernel's:
the very same result matrix (same `+`/`*` applied in the same ascending
per-cell index order), independently of `W`. -/
theorem C2_parallel_bit_identical_to_sequential [Add α] [Mul α] [Zero α]
    {n : Nat} {a b t : Matrix α} (w : Nat)
    (hw : w = 1 ∨ w = 2 ∨ w = 10 ∨ w = 50)
    (ha : a.hasShape n n) (hb : b.hasShape n n) (ht : t.hasShape n n) :
    ∃ r, multiply n n n a b t = Except.ok r ∧
      multiplyParallel n a b w t = some r :=
  ⟨mkCells n n (seqCell a b n), multiply_square_eq ha hb ht,
    multiplyParallel_square_eq w ha hb ht⟩

theorem C2_parallel_bit_identical_to_sequential_witness :
    ∃ r, multiply 2 2 2 (⟨[[1, 2], [3, 4]]⟩ : Matrix ℤ) ⟨[[5, 6], [7, 8]]⟩
        ⟨[[0, 0], [0, 0]]⟩ = Except.ok r ∧
      multiplyParallel 2 (⟨[[1, 2], [3, 4]]⟩ : Matrix ℤ) ⟨[[5, 6], [7, 8]]⟩
        10 ⟨[[0, 0], [0, 0]]⟩ = some r :=
  C2_parallel_bit_identical_to_sequential 10 (by decide) (by decide)
    (by decide) (by decide)

/-- C3 counterexample: `multiply` instantiated with `ROWS = 2, COLS = 1,
INNER = 1` — `A` is 1×1 while `B` is 2×1, mismatched inner dimensions —
does not return a `ShapeError` value at entry: it computes and writes cell
`(0, 0)` of the target and only then panics on the out-of-bounds access
`a.0[1][0]`, so the call ends with the target modified, contradicting both
"returns a ShapeError value" and "the target is left completely
unmodified". -/
theorem C3_shape_error_counterexample :
    multiply 2 1 1 (⟨[[2]]⟩ : Matrix ℤ) ⟨[[3], [4]]⟩ ⟨[[0], [0]]⟩ =
      Except.error ⟨[[6], [0]]⟩ ∧
    (⟨[[6], [0]]⟩ : Matrix ℤ) ≠ ⟨[[0], [0]]⟩ := by
  decide

/-- C3 amended: the kernels perform no runtime shape check and return no
error value; shape agreement is enforced only by the const-generic types,
and an instantiation whose const parameters are inconsistent panics on the
first out-of-bounds access — by which time part of the target may already
have been overwritten (sequential case shown: cell `(0,0)` is written
before the panic), the parallel kernel likewise panicking in a worker. -/
theorem C3_no_entry_shape_check :
    multiply 2 1 1 (⟨[[2]]⟩ : Matrix ℤ) ⟨[[3], [4]]⟩ ⟨[[0], [0]]⟩ =
      Except.error ⟨[[6], [0]]⟩ ∧
    multiplyParallel 1 (⟨[[2]]⟩ : Matrix ℤ) ⟨[[3], [4]]⟩ 1 ⟨[[0], [0]]⟩ =
      none := by
  decide

/-- C4: with `ROWS = COLS = INNER = n` and signature-conforming operands,
every index of both kernels is in bounds — no panic: the sequential kernel
returns `.ok` and the parallel one `some`, for every worker count; and for
the instantiation `ROWS = 1, COLS = 2, INNER = 2` (all positive, not all
equal) with signature-conforming operands, the access `b.0[k][j]` with
`k = 1` is out of bounds (`b` has `ROWS = 1` rows), so each kernel panics
instead of computing the `(m,k)×(k,n)` product its signature suggests. -/
theorem C4_index_bounds :
    (∀ (β : Type) [Add β] [Mul β] [Zero β] (n : Nat) (a b t : Matrix β),
      a.hasShape n n → b.hasShape n n → t.hasShape n n →
        (multiply n n n a b t).isOk = true ∧
        ∀ w, (multiplyParallel n a b w t).isSome = true) ∧
    multiply 1 2 2 (⟨[[1, 2], [3, 4]]⟩ : Matrix ℤ) ⟨[[5, 6]]⟩ ⟨[[0, 0]]⟩ =
      Except.error ⟨[[0, 0]]⟩ ∧
    multiplyParallel 2 (⟨[[1, 2], [3, 4]]⟩ : Matrix ℤ) ⟨[[5, 6]]⟩ 1
      ⟨[[0, 0]]⟩ = none := by
  refine ⟨?_, by decide, by decide⟩
  intro β iA iM iZ n a b t ha hb ht
  constructor
  · rw [multiply_square_eq ha hb ht]
    rfl
  · intro w
    rw [multiplyParallel_square_eq w ha hb ht]
    rfl

theorem C4_index_bounds_witness :
    (multiply 1 1 1 (⟨[[2]]⟩ : Matrix ℤ) ⟨[[3]]⟩ ⟨[[0]]⟩).isOk = true ∧
    (multiplyParallel 1 (⟨[[2]]⟩ : Matrix ℤ) ⟨[[3]]⟩ 7 ⟨[[0]]⟩).isSome =
      true :=
  ⟨(C4_index_bounds.1 ℤ 1 ⟨[[2]]⟩ ⟨[[3]]⟩ ⟨[[0]]⟩ (by decide) (by decide)
      (by decide)).1,
    (C4_index_bounds.1 ℤ 1 ⟨[[2]]⟩ ⟨[[3]]⟩ ⟨[[0]]⟩ (by decide) (by decide)
      (by decide)).2 7⟩

/-- C5 counterexample: `worker_count = 0` is not rejected as an invalid
configuration — the code has no `ConfigError` and `num_threads(0)` makes
rayon choose the pool size automatically (any `build_global` error is
discarded by `.ok()`), so the call with `worker_count = 0` computes the
correct product normally. -/
theorem C5_zero_workers_counterexample :
    multiplyParallel 2 (⟨[[1, 2], [3, 4]]⟩ : Matrix ℤ) ⟨[[5, 6], [7, 8]]⟩ 0
      ⟨[[0, 0], [0, 0]]⟩ = some ⟨[[19, 22], [43, 50]]⟩ := by
  decide

/-- C5 amended: for every worker count — 1 up to any oversubscription
beyond the row count, and also 0 — the parallel kernel returns normally
(no deadlock, no panic) with exactly the sequential kernel's result;
`worker_count = 0` is not rejected but silently means "choose the thread
count automatically". -/
theorem C5_worker_count_robustness [Add α] [Mul α] [Zero α] {n : Nat}
    {a b t : Matrix α} (ha : a.hasShape n n) (hb : b.hasShape n n)
    (ht : t.hasShape n n) :
    ∀ w : Nat, ∃ r, multiplyParallel n a b w t = some r ∧
      multiply n n n a b t = Except.ok r :=
  fun w => ⟨mkCells n n (seqCell a b n),
    multiplyParallel_square_eq w ha hb ht, multiply_square_eq ha hb ht⟩

theorem C5_worker_count_robustness_witness :
    (∃ r, multiplyParallel 2 (⟨[[1, 2], [3, 4]]⟩ : Matrix ℤ)
        ⟨[[5, 6], [7, 8]]⟩ 0 ⟨[[0, 0], [0, 0]]⟩ = some r ∧
      multiply 2 2 2 (⟨[[1, 2], [3, 4]]⟩ : Matrix ℤ) ⟨[[5, 6], [7, 8]]⟩
        ⟨[[0, 0], [0, 0]]⟩ = Except.ok r) ∧
    ∃ r, multiplyParallel 2 (⟨[[1, 2], [3, 4]]⟩ : Matrix ℤ)
        ⟨[[5, 6], [7, 8]]⟩ 50 ⟨[[0, 0], [0, 0]]⟩ = some r ∧
      multiply 2 2 2 (⟨[[1, 2], [3, 4]]⟩ : Matrix ℤ) ⟨[[5, 6], [7, 8]]⟩
        ⟨[[0, 0], [0, 0]]⟩ = Except.ok r :=
  ⟨C5_worker_count_robustness (by decide) (by decide) (by decide) 0,
    C5_worker_count_robustness (by decide) (by decide) (by decide) 50⟩

/-- C6: multiplying any `n × n` matrix by the `n × n` identity matrix with
either kernel returns exactly the original matrix.  The hypotheses are the
identities `x*1 = x`, `x*0 = 0`, `x+0 = x`, `0+x = x` of the element
operations — precisely the spec's justification that "no rounding occurs
when one operand is 0 or 1", satisfied by IEEE-754 doubles on the finite
values the program produces. -/
theorem C6_identity_multiplication [Zero α] [One α] [Add α] [Mul α]
    (hmul1 : ∀ x : α, x * 1 = x) (hmul0 : ∀ x : α, x * 0 = 0)
    (haddz : ∀ x : α, x + 0 = x) (hzadd : ∀ x : α, 0 + x = x)
    {n : Nat} {a t : Matrix α} (ha : a.hasShape n n) (ht : t.hasShape n n) :
    multiply n n n a (Matrix.identity n) t = Except.ok a ∧
    ∀ w, multiplyParallel n a (Matrix.identity n) w t = some a := by
  have hmk : mkCells n n (seqCell a (Matrix.identity n) n) = a := by
    apply Matrix.eq_of_shape_idx? (mkCells_hasShape n n _) ha
    intro i j hi hj
    rw [mkCells_idx? _ hi hj, Matrix.idx?_eq_some ha hi hj,
      seqCell_identity hmul1 hmul0 haddz hzadd a hi hj]
  constructor
  · rw [multiply_square_eq ha (identity_hasShape n) ht, hmk]
  · intro w
    rw [multiplyParallel_square_eq w ha (identity_hasShape n) ht, hmk]

theorem C6_identity_multiplication_witness :
    multiply 2 2 2 (⟨[[1, 2], [3, 4]]⟩ : Matrix ℤ) (Matrix.identity 2)
      ⟨[[9, 9], [9, 9]]⟩ = Except.ok ⟨[[1, 2], [3, 4]]⟩ ∧
    multiplyParallel 2 (⟨[[1, 2], [3, 4]]⟩ : Matrix ℤ) (Matrix.identity 2) 3
      ⟨[[9, 9], [9, 9]]⟩ = some ⟨[[1, 2], [3, 4]]⟩ :=
  ⟨(C6_identity_multiplication (fun x => mul_one x) (fun x => mul_zero x)
      (fun x => add_zero x) (fun x => zero_add x) (by decide) (by decide)).1,
    (C6_identity_multiplication (fun x => mul_one x) (fun x => mul_zero x)
      (fun x => add_zero x) (fun x => zero_add x) (by decide)
      (by decide)).2 3⟩

/-- C7: multiplying any `n × n` matrix by the `n × n` zero matrix produced
by `zeros` with either kernel yields the zero matrix — every cell of the
result is `0.0`.  The hypotheses `x*0 = 0` and `x+0 = x` are the element
identities making every accumulation step vanish. -/
theorem C7_zero_multiplication [Zero α] [Add α] [Mul α]
    (hmul0 : ∀ x : α, x * 0 = 0) (haddz : ∀ x : α, x + 0 = x)
    {n : Nat} {a t : Matrix α} (ha : a.hasShape n n) (ht : t.hasShape n n) :
    multiply n n n a (Matrix.zeros n n) t = Except.ok (Matrix.zeros n n) ∧
    ∀ w, multiplyParallel n a (Matrix.zeros n n) w t =
      some (Matrix.zeros n n) := by
  have hmk : mkCells n n (seqCell a (Matrix.zeros n n) n) =
      Matrix.zeros n n := by
    apply Matrix.eq_of_shape_idx? (mkCells_hasShape n n _)
      (zeros_hasShape n n)
    intro i j hi hj
    rw [mkCells_idx? _ hi hj,
      Matrix.idx?_eq_some (zeros_hasShape n n) hi hj, zeros_get,
      seqCell_zeros hmul0 haddz n n a i j]
  constructor
  · rw [multiply_square_eq ha (zeros_hasShape n n) ht, hmk]
  · intro w
    rw [multiplyParallel_square_eq w ha (zeros_hasShape n n) ht, hmk]

theorem C7_zero_multiplication_witness :
    multiply 2 2 2 (⟨[[1, 2], [3, 4]]⟩ : Matrix ℤ) (Matrix.zeros 2 2)
      ⟨[[9, 9], [9, 9]]⟩ = Except.ok (Matrix.zeros 2 2) ∧
    multiplyParallel 2 (⟨[[1, 2], [3, 4]]⟩ : Matrix ℤ) (Matrix.zeros 2 2) 5
      ⟨[[9, 9], [9, 9]]⟩ = some (Matrix.zeros 2 2) :=
  ⟨(C7_zero_multiplication (fun x => mul_zero x) (fun x => add_zero x)
      (by decide) (by decide)).1,
    (C7_zero_multiplication (fun x => mul_zero x) (fun x => add_zero x)
      (by decide) (by decide)).2 5⟩

/-- C8: the concrete scenario `A = [[1,2],[3,4]]`, `B = [[5,6],[7,8]]`
yields exactly `C = [[19,22],[43,50]]` for the sequential kernel and for
the parallel kernel with worker counts 1 and 4 (all intermediate values
are small integers, represented exactly by IEEE-754 doubles, so the
integer computation tracks the f64 one bit-for-bit). -/
theorem C8_concrete_scenario :
    multiply 2 2 2 (⟨[[1, 2], [3, 4]]⟩ : Matrix ℤ) ⟨[[5, 6], [7, 8]]⟩
      ⟨[[0, 0], [0, 0]]⟩ = Except.ok ⟨[[19, 22], [43, 50]]⟩ ∧
    multiplyParallel 2 (⟨[[1, 2], [3, 4]]⟩ : Matrix ℤ) ⟨[[5, 6], [7, 8]]⟩ 1
      ⟨[[0, 0], [0, 0]]⟩ = some ⟨[[19, 22], [43, 50]]⟩ ∧
    multiplyParallel 2 (⟨[[1, 2], [3, 4]]⟩ : Matrix ℤ) ⟨[[5, 6], [7, 8]]⟩ 4
      ⟨[[0, 0], [0, 0]]⟩ = some ⟨[[19, 22], [43, 50]]⟩ := by
  decide

/-- C9: every element of a matrix produced by the `random` constructor lies
in the half-open interval `[0, 10)`: each cell is a uniform draw from
`[0, 1)` multiplied by `10.0`, and the bound is proved for any linearly
ordered semiring interpretation of the element arithmetic. -/
theorem C9_random_bounds {β : Type} [LinearOrderedSemiring β]
    (rows cols : Nat) (draw : Nat → Nat → β)
    (h : ∀ i j, 0 ≤ draw i j ∧ draw i j < 1) :
    ∀ row ∈ (Matrix.random rows cols draw).data, ∀ x ∈ row,
      0 ≤ x ∧ x < 10 := by
  intro row hrow x hx
  simp only [Matrix.random, List.mem_map] at hrow
  obtain ⟨i, hi, rfl⟩ := hrow
  simp only [List.mem_map] at hx
  obtain ⟨j, hj, rfl⟩ := hx
  obtain ⟨h0, h1⟩ := h i j
  constructor
  · exact mul_nonneg h0 (by norm_num)
  · have h10 : (0 : β) < 10 := by norm_num
    have hlt := mul_lt_mul_of_pos_right h1 h10
    rw [one_mul] at hlt
    exact hlt

theorem C9_random_bounds_witness :
    (∀ i j : Nat, 0 ≤ (fun _ _ : Nat => (0 : ℚ)) i j ∧
      (fun _ _ : Nat => (0 : ℚ)) i j < 1) ∧
    ∀ row ∈ (Matrix.random 2 2 (fun _ _ : Nat => (0 : ℚ))).data, ∀ x ∈ row,
      0 ≤ x ∧ x < 10 :=
  ⟨fun _ _ => ⟨le_refl 0, zero_lt_one⟩,
    C9_random_bounds 2 2 (fun _ _ => 0)
      (fun _ _ => ⟨le_refl 0, zero_lt_one⟩)⟩

lemma renderRow_tail (f : α → String) :
    ∀ (xs : List α) (k : Nat) (acc : String),
      (List.enumFrom (k + 1) xs).foldl (rowStep f) acc =
        acc ++ (match xs with
          | [] => ""
          | y :: ys => " " ++ joinSep " " ((y :: ys).map f)) := by
  intro xs
  induction xs with
  | nil =>
    intro k acc
    rw [List.enumFrom_nil, List.foldl_nil, String.append_empty]
  | cons y ys ih =>
    intro k acc
    rw [List.enumFrom_cons, List.foldl_cons]
    have hstep : rowStep f acc (k + 1, y) = acc ++ " " ++ f y := by
      unfold rowStep
      rw [if_pos (Nat.succ_pos k)]
    rw [hstep, ih (k + 1)]
    cases ys with
    | nil =>
      simp only [List.map_cons, List.map_nil, joinSep, String.append_empty,
        String.append_assoc]
    | cons z zs =>
      simp only [List.map_cons, joinSep, String.append_assoc]

lemma renderRow_eq (f : α → String) (row : List α) :
    renderRow f row = joinSep " " (row.map f) := by
  cases row with
  | nil => rfl
  | cons x xs =>
    unfold renderRow
    rw [List.enum_cons, List.foldl_cons]
    have hstep : rowStep f "" (0, x) = f x := by
      unfold rowStep
      rw [if_neg (lt_irrefl 0), String.empty_append, String.empty_append]
    rw [hstep]
    have htail := renderRow_tail f xs 0 (f x)
    rw [Nat.zero_add] at htail
    rw [htail]
    cases xs with
    | nil =>
      simp only [List.map_cons, List.map_nil, joinSep, String.append_empty]
    | cons z zs =>
      simp only [List.map_cons, joinSep, String.append_assoc]

lemma render_tail (f : α → String) (L : Nat) :
    ∀ (l : List (List α)) (k : Nat) (acc : String), k + l.length = L →
      (List.enumFrom k l).foldl (rowsStep f L) acc =
        acc ++ joinSep "\n"
          (l.map fun row => "[" ++ renderRow f row ++ "]") := by
  intro l
  induction l with
  | nil =>
    intro k acc hk
    rw [List.enumFrom_nil, List.foldl_nil]
    simp only [List.map_nil, joinSep, String.append_empty]
  | cons r rs ih =>
    intro k acc hk
    rw [List.enumFrom_cons, List.foldl_cons]
    cases rs with
    | nil =>
      have hstep : rowsStep f L acc (k, r) =
          acc ++ "[" ++ renderRow f r ++ "]" := by
        unfold rowsStep
        rw [if_neg (show ¬ k < L - 1 by simp at hk; omega),
          String.append_empty]
      rw [hstep, List.enumFrom_nil, List.foldl_nil]
      simp only [List.map_cons, List.map_nil, joinSep, String.append_assoc]
    | cons r2 rs2 =>
      have hstep : rowsStep f L acc (k, r) =
          acc ++ "[" ++ renderRow f r ++ "]" ++ "\n" := by
        unfold rowsStep
        rw [if_pos (show k < L - 1 by simp at hk; omega)]
      rw [hstep,
        ih (k + 1) (acc ++ "[" ++ renderRow f r ++ "]" ++ "\n")
          (by simp at hk ⊢; omega)]
      simp only [List.map_cons, joinSep, String.append_assoc]

lemma render_eq_joinSep (f : α → String) (m : Matrix α) :
    m.render f = joinSep "\n"
      (m.data.map fun row => "[" ++ joinSep " " (row.map f) ++ "]") := by
  unfold Matrix.render
  have h := render_tail f m.data.length m.data 0 "" (Nat.zero_add _)
  show (List.enumFrom 0 m.data).foldl (rowsStep f m.data.length) "" = _
  rw [h, String.empty_append]
  have hfun : (fun row : List α => "[" ++ renderRow f row ++ "]") =
      fun row => "[" ++ joinSep " " (row.map f) ++ "]" :=
    funext fun row => by rw [renderRow_eq]
  rw [hfun]

lemma sixFracDigits_length (n : Nat) : (sixFracDigits n).length = 6 := rfl

lemma digitChar_isDigit {d : Nat} (hd : d < 10) :
    (Nat.digitChar d).isDigit = true := by
  interval_cases d <;> decide

lemma sixFracDigits_digits (n : Nat) :
    ∀ c ∈ (sixFracDigits n).data, c.isDigit = true := by
  intro c hc
  have hc2 : c ∈ (List.range 6).map
      (fun i => Nat.digitChar (n / 10 ^ (5 - i) % 10)) := hc
  simp only [List.mem_map] at hc2
  obtain ⟨i, hi, rfl⟩ := hc2
  exact digitChar_isDigit (Nat.mod_lt _ (by omega))

/-- C10: the rendering of any matrix encloses each row in square brackets,
separates values within a row by single spaces, separates rows by
newlines with no trailing newline after the last row, and formats every
value to a fixed six decimal places: each rendered value is some prefix
followed by a decimal point and exactly six decimal digits. -/
theorem C10_render_format (m : Matrix ℚ) :
    m.render fmtFixed6 =
      joinSep "\n" (m.data.map fun row =>
        "[" ++ joinSep " " (row.map fmtFixed6) ++ "]") ∧
    ∀ q : ℚ, ∃ pre post : String,
      fmtFixed6 q = pre ++ "." ++ post ∧ post.length = 6 ∧
      ∀ c ∈ post.data, c.isDigit = true := by
  refine ⟨render_eq_joinSep fmtFixed6 m, ?_⟩
  intro q
  exact ⟨(if roundTiesEven (q * 1000000) < 0 then "-" else "") ++
      Nat.repr ((roundTiesEven (q * 1000000)).natAbs / 1000000),
    sixFracDigits ((roundTiesEven (q * 1000000)).natAbs % 1000000),
    rfl, sixFracDigits_length _, sixFracDigits_digits _⟩
